import Mathlib

/-!
Verification of `validator.py` (YAML Schema Validator for TCMS Schemas).

The program loads a YAML document, resolves or receives the path of a JSON
schema, loads the schema, and validates the document against the schema,
reporting the first violation with its failure path and schema path, and
exiting 0 on success and nonzero on failure.

The shallow embedding below models:
- parsed YAML/JSON value trees (`Json`) as they come out of `yaml.safe_load`
  and `json.load`, keeping the integer/float distinction as a tag;
- the validation engine (the call `jsonschema.validate(instance, schema)` in
  `YamlSchemaValidator.validate`): the library is not part of the repository,
  so the engine is modelled from the specification's description of its
  constraint vocabulary (type, enum/const, pattern/format, required,
  properties/additionalProperties, items/additionalItems, and the
  combinators allOf/anyOf/oneOf/not) and its fail-fast behaviour; the
  semantics of the external regular-expression/format dialect is a
  parameter of the model (`StringSem`);
- the report-formatting code of `YamlSchemaValidator.validate` (the
  `Validation Error` / `Failed at` / `Schema path` / `Schema Error` lines);
- `load_yaml`, `load_json_schema`, `validate_and_report`;
- `infer_schema_path` over the component list of the document path;
- the exit-code behaviour of `main`, including the existence checks that the
  `click.Path(exists=True)` argument declarations perform before the body of
  `main` runs.
-/

namespace Validator

mutual
/-- A parsed YAML/JSON value, as produced by `yaml.safe_load` / `json.load`.
Numbers keep the integer-versus-float distinction as a tag: `int` for values
parsed as Python `int`, `num` for values parsed as Python `float`.  `arr` and
`obj` use dedicated spine types so that every function below is structurally
recursive. -/
inductive Json where
  | null : Json
  | bool (b : Bool) : Json
  | int (n : Int) : Json
  | num (q : Rat) : Json
  | str (s : String) : Json
  | arr (elems : JArr) : Json
  | obj (entries : JObj) : Json
deriving DecidableEq, Repr

/-- Spine of a JSON array (a list of `Json` values). -/
inductive JArr where
  | nil : JArr
  | cons (hd : Json) (tl : JArr) : JArr
deriving DecidableEq, Repr

/-- Spine of a JSON object (an ordered association list of `Json` values,
keys in declaration order as Python dicts preserve insertion order). -/
inductive JObj where
  | nil : JObj
  | cons (key : String) (val : Json) (tl : JObj) : JObj
deriving DecidableEq, Repr
end

/-- Look up a key in a JSON object, first binding wins (Python dict lookup;
YAML mappings have unique keys anyway). -/
def JObj.lookup : JObj → String → Option Json
  | .nil, _ => Option.none
  | .cons k v tl, key => if k == key then Option.some v else tl.lookup key

/-- The keys of a JSON object, in declaration order. -/
def JObj.keys : JObj → List String
  | .nil => []
  | .cons k _ tl => k :: tl.keys

/-- Membership of a value in a JSON array. -/
def JArr.contains : JArr → Json → Bool
  | .nil, _ => false
  | .cons hd tl, v => hd == v || tl.contains v

/-- The result of `infer_schema_path`: a successfully built schema path, the
`None` return (no `samples` component), or the uncaught `IndexError` raised by
`parts[idx + 1]` when `samples` is the last component. -/
inductive InferResult where
  | ok (path : String)
  | noInference
  | indexError
deriving DecidableEq, Repr

/-- The fixed naming convention `schemas/<category>/<category>.schema.json`
of `infer_schema_path`. -/
def schemaPathFor (category : String) : String :=
  "schemas/" ++ category ++ "/" ++ category ++ ".schema.json"

/-- Index of the first `"samples"` component, mirroring the combination of
`'samples' in parts` and `parts.index('samples')` (which returns the index of
the first occurrence). -/
def indexOfSamples : List String → Option Nat
  | [] => Option.none
  | p :: rest =>
      if p == "samples" then Option.some 0
      else (indexOfSamples rest).map (· + 1)

/-- `infer_schema_path` over the component list of the document path
(`yaml_file.parts`): if a `samples` component is present, the component after
the first occurrence is the category and the result is
`schemas/<category>/<category>.schema.json`; `parts[idx + 1]` raises
`IndexError` when that first occurrence is the last component; otherwise the
function returns `None`. -/
def infer_schema_path (parts : List String) : InferResult :=
  match indexOfSamples parts with
  | Option.some idx =>
      match parts[idx + 1]? with
      | Option.some category => .ok (schemaPathFor category)
      | Option.none => .indexError
  | Option.none => .noInference

/-- A JSON Schema `type` keyword value supported by the model. -/
inductive JTy where
  | object | array | string | integer | number | boolean | nullT
deriving DecidableEq, Repr

/-- Parse a `type` keyword string; an unsupported value is a schema-authoring
defect that the engine detects (`SchemaError`). -/
def parseTy (s : String) : Option JTy :=
  if s == "object" then Option.some .object
  else if s == "array" then Option.some .array
  else if s == "string" then Option.some .string
  else if s == "integer" then Option.some .integer
  else if s == "number" then Option.some .number
  else if s == "boolean" then Option.some .boolean
  else if s == "null" then Option.some .nullT
  else Option.none

mutual
/-- Modelled from the spec: the Validation Engine is the library call
`jsonschema.validate(instance, schema)`, whose implementation is not part of
the repository; only its caller `YamlSchemaValidator.validate` is.  A
well-formed schema node carries the full constraint vocabulary the
specification lists for the engine: `type`, `enum`/`const`,
`pattern`/`format` (string-level constraints, whose dialect semantics is a
parameter of the model, see `StringSem`), `required`,
`properties`/`additionalProperties`, `items` (single-schema or per-index
tuple form)/`additionalItems`, and the combinators
`allOf`/`anyOf`/`oneOf`/`not`; each keyword is optional. -/
inductive Schema where
  | mk (typeC : Option JTy) (enumC : Option JArr) (constC : Option Json)
       (patternC : Option String) (formatC : Option String)
       (requiredC : List String) (propertiesC : Props) (addPropsC : OSch)
       (itemsC : ItemsC) (addItemsC : OSch) (allOfC : Schemas)
       (anyOfC : OSchemas) (oneOfC : OSchemas) (notC : OSch) : Schema
deriving DecidableEq, Repr

/-- An optional subschema (`additionalProperties`, `additionalItems`,
`not`). -/
inductive OSch where
  | none : OSch
  | some (s : Schema) : OSch
deriving DecidableEq, Repr

/-- The `items` keyword: absent, a single subschema applied to every
element, or the tuple form with one subschema per index
(`additionalItems` then governs the indices beyond the tuple). -/
inductive ItemsC where
  | noItems : ItemsC
  | single (s : Schema) : ItemsC
  | tuple (ss : Schemas) : ItemsC
deriving DecidableEq, Repr

/-- The `properties` keyword: named subschemas in declaration order. -/
inductive Props where
  | nil : Props
  | cons (key : String) (sub : Schema) (tl : Props) : Props
deriving DecidableEq, Repr

/-- A list of subschemas (`allOf`, `anyOf`, `oneOf`, tuple `items`), in
declaration order. -/
inductive Schemas where
  | nil : Schemas
  | cons (hd : Schema) (tl : Schemas) : Schemas
deriving DecidableEq, Repr

/-- An optional list of subschemas (`anyOf`, `oneOf`): an absent combinator
constrains nothing, while a present empty one is unsatisfiable. -/
inductive OSchemas where
  | none : OSchemas
  | some (ss : Schemas) : OSchemas
deriving DecidableEq, Repr
end

/-- The schema node with no constraints (the empty JSON object `{}`), which
every instance satisfies. -/
def emptySchema : Schema :=
  .mk Option.none Option.none Option.none Option.none Option.none []
    .nil .none .noItems .none .nil .none .none .none

/-- The keys named by a `properties` keyword, in declaration order (the keys
`additionalProperties` does not govern). -/
def propsKeys : Props → List String
  | .nil => []
  | .cons k _ tl => k :: propsKeys tl

/-- Replace the `type` constraint of a schema node. -/
def Schema.withType (s : Schema) (t : Option JTy) : Schema :=
  match s with
  | .mk _ e c pt fm r p ap i ai al an o n => .mk t e c pt fm r p ap i ai al an o n

/-- Replace the `enum` constraint of a schema node. -/
def Schema.withEnum (s : Schema) (e : Option JArr) : Schema :=
  match s with
  | .mk t _ c pt fm r p ap i ai al an o n => .mk t e c pt fm r p ap i ai al an o n

/-- Replace the `const` constraint of a schema node. -/
def Schema.withConst (s : Schema) (c : Option Json) : Schema :=
  match s with
  | .mk t e _ pt fm r p ap i ai al an o n => .mk t e c pt fm r p ap i ai al an o n

/-- Replace the `pattern` constraint of a schema node. -/
def Schema.withPattern (s : Schema) (pt : Option String) : Schema :=
  match s with
  | .mk t e c _ fm r p ap i ai al an o n => .mk t e c pt fm r p ap i ai al an o n

/-- Replace the `format` constraint of a schema node. -/
def Schema.withFormat (s : Schema) (fm : Option String) : Schema :=
  match s with
  | .mk t e c pt _ r p ap i ai al an o n => .mk t e c pt fm r p ap i ai al an o n

/-- Replace the `required` constraint of a schema node. -/
def Schema.withRequired (s : Schema) (r : List String) : Schema :=
  match s with
  | .mk t e c pt fm _ p ap i ai al an o n => .mk t e c pt fm r p ap i ai al an o n

/-- Replace the `properties` constraint of a schema node. -/
def Schema.withProps (s : Schema) (p : Props) : Schema :=
  match s with
  | .mk t e c pt fm r _ ap i ai al an o n => .mk t e c pt fm r p ap i ai al an o n

/-- Replace the `additionalProperties` constraint of a schema node. -/
def Schema.withAddProps (s : Schema) (ap : OSch) : Schema :=
  match s with
  | .mk t e c pt fm r p _ i ai al an o n => .mk t e c pt fm r p ap i ai al an o n

/-- Replace the `items` constraint of a schema node. -/
def Schema.withItems (s : Schema) (i : ItemsC) : Schema :=
  match s with
  | .mk t e c pt fm r p ap _ ai al an o n => .mk t e c pt fm r p ap i ai al an o n

/-- Replace the `additionalItems` constraint of a schema node. -/
def Schema.withAddItems (s : Schema) (ai : OSch) : Schema :=
  match s with
  | .mk t e c pt fm r p ap i _ al an o n => .mk t e c pt fm r p ap i ai al an o n

/-- Replace the `allOf` constraint of a schema node. -/
def Schema.withAllOf (s : Schema) (al : Schemas) : Schema :=
  match s with
  | .mk t e c pt fm r p ap i ai _ an o n => .mk t e c pt fm r p ap i ai al an o n

/-- Replace the `anyOf` constraint of a schema node. -/
def Schema.withAnyOf (s : Schema) (an : OSchemas) : Schema :=
  match s with
  | .mk t e c pt fm r p ap i ai al _ o n => .mk t e c pt fm r p ap i ai al an o n

/-- Replace the `oneOf` constraint of a schema node. -/
def Schema.withOneOf (s : Schema) (o : OSchemas) : Schema :=
  match s with
  | .mk t e c pt fm r p ap i ai al an _ n => .mk t e c pt fm r p ap i ai al an o n

/-- Replace the `not` constraint of a schema node. -/
def Schema.withNot (s : Schema) (n : OSch) : Schema :=
  match s with
  | .mk t e c pt fm r p ap i ai al an o _ => .mk t e c pt fm r p ap i ai al an o n

/-- Parse the value array of a `required` keyword (must be all strings). -/
def parseRequired : JArr → Option (List String)
  | .nil => Option.some []
  | .cons (.str s) tl => (parseRequired tl).map (s :: ·)
  | .cons _ _ => Option.none

mutual
/-- Modelled from the spec: the schema self-check that
`jsonschema.validate` performs before validating the instance.  The library
implementing the Validation Engine is not part of the repository; only its
caller `YamlSchemaValidator.validate` is.  A schema is well-formed when it is
a JSON object whose recognised keywords are well-typed: `type` a supported
type name, `enum` an array, `required` an array of strings, `properties` an
object of subschemas, `allOf` an array of subschemas.
Unrecognised keys are ignored, as in JSON Schema.  The result is
`Option.none` exactly when the engine detects a schema-authoring defect
(`SchemaError`). -/
def parseSchema : Json → Option Schema
  | .obj entries => parseFields entries
  | _ => Option.none

/-- Interpret the fields of a schema object one by one, covering every
constraint keyword the specification lists for the engine.  A key outside
that vocabulary (an annotation such as `title`) is ignored, as the
vocabulary-driven engine of the spec evaluates only its constraint keywords;
a constraint keyword with an ill-typed value (such as `pattern: 5`) makes
the whole schema malformed. -/
def parseFields : JObj → Option Schema
  | .nil => Option.some emptySchema
  | .cons k v tl => do
      let rest ← parseFields tl
      if k == "type" then
        match v with
        | .str s => (parseTy s).map (fun ty => rest.withType (Option.some ty))
        | _ => Option.none
      else if k == "enum" then
        match v with
        | .arr xs => Option.some (rest.withEnum (Option.some xs))
        | _ => Option.none
      else if k == "const" then
        Option.some (rest.withConst (Option.some v))
      else if k == "pattern" then
        match v with
        | .str pat => Option.some (rest.withPattern (Option.some pat))
        | _ => Option.none
      else if k == "format" then
        match v with
        | .str fmt => Option.some (rest.withFormat (Option.some fmt))
        | _ => Option.none
      else if k == "required" then
        match v with
        | .arr xs => (parseRequired xs).map rest.withRequired
        | _ => Option.none
      else if k == "properties" then
        match v with
        | .obj ps => (parseProps ps).map rest.withProps
        | _ => Option.none
      else if k == "additionalProperties" then
        match v with
        | .obj ps => (parseFields ps).map (fun s => rest.withAddProps (.some s))
        | _ => Option.none
      else if k == "items" then
        match v with
        | .arr xs => (parseSchemas xs).map (fun ss => rest.withItems (.tuple ss))
        | .obj ps => (parseFields ps).map (fun s => rest.withItems (.single s))
        | _ => Option.none
      else if k == "additionalItems" then
        match v with
        | .obj ps => (parseFields ps).map (fun s => rest.withAddItems (.some s))
        | _ => Option.none
      else if k == "allOf" then
        match v with
        | .arr xs => (parseSchemas xs).map rest.withAllOf
        | _ => Option.none
      else if k == "anyOf" then
        match v with
        | .arr xs => (parseSchemas xs).map (fun ss => rest.withAnyOf (.some ss))
        | _ => Option.none
      else if k == "oneOf" then
        match v with
        | .arr xs => (parseSchemas xs).map (fun ss => rest.withOneOf (.some ss))
        | _ => Option.none
      else if k == "not" then
        match v with
        | .obj ps => (parseFields ps).map (fun s => rest.withNot (.some s))
        | _ => Option.none
      else Option.some rest

/-- Parse the value object of a `properties` keyword. -/
def parseProps : JObj → Option Props
  | .nil => Option.some .nil
  | .cons k v tl => do
      let sub ← parseSchema v
      let rest ← parseProps tl
      Option.some (.cons k sub rest)

/-- Parse the value array of an `allOf` keyword. -/
def parseSchemas : JArr → Option Schemas
  | .nil => Option.some .nil
  | .cons hd tl => do
      let s ← parseSchema hd
      let rest ← parseSchemas tl
      Option.some (.cons s rest)
end

/-- A single constraint violation: the data carried by a
`jsonschema.ValidationError` that `YamlSchemaValidator.validate` reports
(`e.message`, `e.path`, `e.schema_path`; the paths as the printed string
segments). -/
structure Violation where
  message : String
  failurePath : List String
  schemaPath : List String
deriving DecidableEq, Repr

/-- Result of checking one document node against one schema node: success, or
the single violation the fail-fast walk stopped at. -/
inductive CheckResult where
  | ok : CheckResult
  | fail (v : Violation) : CheckResult
deriving DecidableEq, Repr

/-- Printable name of a supported `type` keyword value. -/
def tyName : JTy → String
  | .object => "object"
  | .array => "array"
  | .string => "string"
  | .integer => "integer"
  | .number => "number"
  | .boolean => "boolean"
  | .nullT => "null"

/-- Modelled from the spec: the `type` keyword's scalar-kind match.  The
`integer` versus `number` distinction is kept on the value tag: `integer`
matches only values parsed as integers, `number` matches both integers and
floats (integers are a subtype of numbers, the reverse does not hold). -/
def typeMatches : JTy → Json → Bool
  | .object, .obj _ => true
  | .array, .arr _ => true
  | .string, .str _ => true
  | .integer, .int _ => true
  | .number, .int _ => true
  | .number, .num _ => true
  | .boolean, .bool _ => true
  | .nullT, .null => true
  | _, _ => false

/-- Does the object have an entry for the key? -/
def JObj.hasKey (entries : JObj) (k : String) : Bool :=
  match entries with
  | .nil => false
  | .cons k0 _ tl => k0 == k || tl.hasKey k

/-- All violations of a `type` keyword at a node (none, or exactly one). -/
def collectType (t : Option JTy) (d : Json) (path spath : List String) :
    List Violation :=
  match t with
  | Option.none => []
  | Option.some ty =>
      if typeMatches ty d then []
      else [⟨"value is not of type " ++ tyName ty, path, spath ++ ["type"]⟩]

/-- All violations of an `enum` keyword at a node (none, or exactly one). -/
def collectEnum (e : Option JArr) (d : Json) (path spath : List String) :
    List Violation :=
  match e with
  | Option.none => []
  | Option.some xs =>
      if xs.contains d then []
      else [⟨"value is not one of the enumerated values", path,
             spath ++ ["enum"]⟩]

/-- The keys of a `required` keyword that are missing from the object, in
declaration order of the `required` array. -/
def missingKeys (r : List String) (entries : JObj) : List String :=
  match r with
  | [] => []
  | k :: rest =>
      if entries.hasKey k then missingKeys rest entries
      else k :: missingKeys rest entries

/-- All violations of a `required` keyword at a node, one per missing key in
declaration order; non-object values satisfy `required` vacuously.  The
violation is located at the mapping node itself (empty relative path) with
schema path ending in `required`. -/
def collectRequired (r : List String) (d : Json) (path spath : List String) :
    List Violation :=
  match d with
  | .obj entries =>
      (missingKeys r entries).map
        (fun k => ⟨"missing required property " ++ k, path,
                   spath ++ ["required"]⟩)
  | _ => []

/-- The outcome of a fail-fast walk over a list of violations collected in
traversal order: `ok` when there are none, otherwise the first one. -/
def headRes (vs : List Violation) : CheckResult :=
  match vs with
  | [] => .ok
  | v :: _ => .fail v

/-- Fail-fast sequencing of two checks: stop at the first violation. -/
def seqR (r rest : CheckResult) : CheckResult :=
  match r with
  | .fail v => .fail v
  | .ok => rest

/-- Look up a key of the document when it is an object; a non-object has no
keys (`properties` and `required` constrain only objects). -/
def lookupIn (d : Json) (k : String) : Option Json :=
  match d with
  | .obj entries => entries.lookup k
  | _ => Option.none

/-- The `type` keyword is satisfied: absent, or the value matches. -/
def typeOkB (t : Option JTy) (d : Json) : Bool :=
  match t with
  | Option.none => true
  | Option.some ty => typeMatches ty d

/-- The `enum` keyword is satisfied: absent, or the value is a member. -/
def enumOkB (e : Option JArr) (d : Json) : Bool :=
  match e with
  | Option.none => true
  | Option.some xs => xs.contains d

/-- The `required` keyword is satisfied: every listed key is present
(vacuously for non-objects). -/
def requiredOkB (r : List String) (d : Json) : Bool :=
  match d with
  | .obj entries => r.all (fun k => entries.hasKey k)
  | _ => true

/-- Modelled from the spec: the semantics of the string-level constraints
`pattern` and `format`.  The spec says a pattern "is evaluated with anchors
as in the constraint's regular-expression dialect" and formats are
ecosystem-defined, so the dialect itself is external to the program; the
model takes it as a parameter — `matchesPattern pat s` decides whether the
string `s` matches the regular expression `pat`, `matchesFormat fmt d`
whether the value `d` conforms to the named format.  Every theorem about the
engine holds for an arbitrary dialect. -/
structure StringSem where
  matchesPattern : String → String → Bool
  matchesFormat : String → Json → Bool

/-- A trivial dialect (every pattern and format accepted), used to
instantiate witnesses whose schemas carry no `pattern`/`format` keyword. -/
def anyStringSem : StringSem :=
  ⟨fun _ _ => true, fun _ _ => true⟩

/-- The `const` keyword is satisfied: absent, or the value is structurally
equal to the constant. -/
def constOkB (c : Option Json) (d : Json) : Bool :=
  match c with
  | Option.none => true
  | Option.some v => v == d

/-- The `pattern` keyword is satisfied: absent, the value is not a string
(pattern constrains only strings), or the string matches per the dialect. -/
def patternOkB (sem : StringSem) (p : Option String) (d : Json) : Bool :=
  match p, d with
  | Option.none, _ => true
  | Option.some pat, .str s => sem.matchesPattern pat s
  | Option.some _, _ => true

/-- The `format` keyword is satisfied: absent, or the value conforms per the
dialect. -/
def formatOkB (sem : StringSem) (f : Option String) (d : Json) : Bool :=
  match f with
  | Option.none => true
  | Option.some fmt => sem.matchesFormat fmt d

/-- The elements of the document when it is an array (`items` constrains
only arrays). -/
def elemsOf (d : Json) : Option JArr :=
  match d with
  | .arr elems => Option.some elems
  | _ => Option.none

/-- The entries of the document when it is an object
(`additionalProperties` constrains only objects). -/
def entriesOf (d : Json) : Option JObj :=
  match d with
  | .obj entries => Option.some entries
  | _ => Option.none

/-- Zero violations when the constraint holds, exactly one otherwise. -/
def collectIf (b : Bool) (v : Violation) : List Violation :=
  if b then [] else [v]

/-- All violations of a `const` keyword at a node (none, or exactly one). -/
def collectConst (c : Option Json) (d : Json) (path spath : List String) :
    List Violation :=
  collectIf (constOkB c d)
    ⟨"value is not the const value", path, spath ++ ["const"]⟩

/-- All violations of a `pattern` keyword at a node (none, or exactly
one). -/
def collectPattern (sem : StringSem) (p : Option String) (d : Json)
    (path spath : List String) : List Violation :=
  collectIf (patternOkB sem p d)
    ⟨"value does not match the pattern", path, spath ++ ["pattern"]⟩

/-- All violations of a `format` keyword at a node (none, or exactly
one). -/
def collectFormat (sem : StringSem) (f : Option String) (d : Json)
    (path spath : List String) : List Violation :=
  collectIf (formatOkB sem f d)
    ⟨"value does not conform to the format", path, spath ++ ["format"]⟩

mutual
/-- Modelled from the spec: the declarative reading of `validate` — the
document satisfies every applicable constraint of the schema, over the full
vocabulary the specification lists: its value matches `type`, is a member of
the `enum` values, equals the `const` value, matches `pattern` and conforms
to `format` per the dialect `sem`, an object has every `required` key, every
`properties` entry whose key is present is recursively satisfied, every
key not named by `properties` satisfies `additionalProperties`, array
elements satisfy `items` per element (single form) or per index (tuple form,
with `additionalItems` beyond the tuple), every `allOf` branch is satisfied,
at least one `anyOf` branch, exactly one `oneOf` branch, and the `not`
subschema is not satisfied. -/
def satisfiesB (sem : StringSem) : Schema → Json → Bool
  | .mk tC eC cC patC fmtC rC pC apC iC aiC alC anC oC nC, d =>
      typeOkB tC d &&
      enumOkB eC d &&
      constOkB cC d &&
      patternOkB sem patC d &&
      formatOkB sem fmtC d &&
      requiredOkB rC d &&
      propsAll sem pC d &&
      addPropsAll sem apC (propsKeys pC) d &&
      itemsAll sem iC aiC d &&
      allOfAll sem alC d &&
      anyOfOkB sem anC d &&
      oneOfOkB sem oC d &&
      notOkB sem nC d
termination_by s => (sizeOf s, 0)

/-- Every `properties` entry whose key is present in the document object is
satisfied by the corresponding value (vacuous for non-objects). -/
def propsAll (sem : StringSem) : Props → Json → Bool
  | .nil, _ => true
  | .cons k sub tl, d =>
      (match lookupIn d k with
       | Option.none => true
       | Option.some v => satisfiesB sem sub v) &&
      propsAll sem tl d
termination_by p => (sizeOf p, 0)

/-- When `additionalProperties` carries a subschema and the document is an
object, every entry whose key is not named by `properties` satisfies it. -/
def addPropsAll (sem : StringSem) : OSch → List String → Json → Bool
  | .none, _, _ => true
  | .some s, own, d =>
      match entriesOf d with
      | Option.none => true
      | Option.some entries => extraAll sem s own entries
termination_by ap => (sizeOf ap, 0)

/-- Walk of the document entries for `additionalProperties`. -/
def extraAll (sem : StringSem) : Schema → List String → JObj → Bool
  | _, _, .nil => true
  | s, own, .cons k v tl =>
      (if own.contains k then true else satisfiesB sem s v) &&
      extraAll sem s own tl
termination_by s _ entries => (sizeOf s, sizeOf entries + 1)

/-- The `items`/`additionalItems` pair is satisfied (vacuous for
non-arrays). -/
def itemsAll (sem : StringSem) : ItemsC → OSch → Json → Bool
  | .noItems, _, _ => true
  | .single s, _, d =>
      match elemsOf d with
      | Option.none => true
      | Option.some elems => elemsAll sem s elems
  | .tuple ss, aiC, d =>
      match elemsOf d with
      | Option.none => true
      | Option.some elems => tupleAll sem ss aiC elems
termination_by iC aiC => (sizeOf iC + sizeOf aiC, 0)

/-- Every array element satisfies the single `items` subschema. -/
def elemsAll (sem : StringSem) : Schema → JArr → Bool
  | _, .nil => true
  | s, .cons hd tl => satisfiesB sem s hd && elemsAll sem s tl
termination_by s elems => (sizeOf s, sizeOf elems + 1)

/-- Element `i` satisfies tuple subschema `i`; elements beyond the tuple
satisfy `additionalItems` when present and are unconstrained otherwise. -/
def tupleAll (sem : StringSem) : Schemas → OSch → JArr → Bool
  | .cons s rest, aiC, .cons hd tl => satisfiesB sem s hd && tupleAll sem rest aiC tl
  | .cons _ _, _, .nil => true
  | .nil, .none, _ => true
  | .nil, .some s, .cons hd tl => satisfiesB sem s hd && tupleAll sem .nil (.some s) tl
  | .nil, .some _, .nil => true
termination_by ss aiC elems => (sizeOf ss + sizeOf aiC, sizeOf elems + 1)

/-- Every `allOf` branch is satisfied. -/
def allOfAll (sem : StringSem) : Schemas → Json → Bool
  | .nil, _ => true
  | .cons hd tl, d => satisfiesB sem hd d && allOfAll sem tl d
termination_by a => (sizeOf a, 0)

/-- Some branch of the list is satisfied. -/
def anyOfExB (sem : StringSem) : Schemas → Json → Bool
  | .nil, _ => false
  | .cons hd tl, d => satisfiesB sem hd d || anyOfExB sem tl d
termination_by ss => (sizeOf ss, 0)

/-- How many branches of the list are satisfied (the `oneOf` sub-evaluation
counts matches over all branches). -/
def oneOfCount (sem : StringSem) : Schemas → Json → Nat
  | .nil, _ => 0
  | .cons hd tl, d =>
      (if satisfiesB sem hd d then 1 else 0) + oneOfCount sem tl d
termination_by ss => (sizeOf ss, 0)

/-- The `anyOf` keyword is satisfied: absent, or at least one branch
matches. -/
def anyOfOkB (sem : StringSem) : OSchemas → Json → Bool
  | .none, _ => true
  | .some ss, d => anyOfExB sem ss d
termination_by an => (sizeOf an, 0)

/-- The `oneOf` keyword is satisfied: absent, or exactly one branch
matches. -/
def oneOfOkB (sem : StringSem) : OSchemas → Json → Bool
  | .none, _ => true
  | .some ss, d => oneOfCount sem ss d == 1
termination_by o => (sizeOf o, 0)

/-- The `not` keyword is satisfied: absent, or the subschema is not
satisfied. -/
def notOkB (sem : StringSem) : OSch → Json → Bool
  | .none, _ => true
  | .some s, d => !satisfiesB sem s d
termination_by n => (sizeOf n, 0)
end

/-- All violations of an `anyOf` keyword at a node.  Per the spec, the
combinator sub-evaluation is pass/fail over all branches, scoped locally: a
single violation at the `anyOf` level when no branch matches. -/
def collectAnyOf (sem : StringSem) (an : OSchemas) (d : Json)
    (path spath : List String) : List Violation :=
  collectIf (anyOfOkB sem an d)
    ⟨"value is not valid under any of the anyOf subschemas", path,
     spath ++ ["anyOf"]⟩

/-- All violations of a `oneOf` keyword at a node: a single violation at the
`oneOf` level unless exactly one branch matches. -/
def collectOneOf (sem : StringSem) (o : OSchemas) (d : Json)
    (path spath : List String) : List Violation :=
  collectIf (oneOfOkB sem o d)
    ⟨"value is not valid under exactly one of the oneOf subschemas", path,
     spath ++ ["oneOf"]⟩

/-- All violations of a `not` keyword at a node: a single violation at the
`not` level when the subschema is satisfied. -/
def collectNot (sem : StringSem) (n : OSch) (d : Json)
    (path spath : List String) : List Violation :=
  collectIf (notOkB sem n d)
    ⟨"value must not be valid under the not subschema", path,
     spath ++ ["not"]⟩

mutual
/-- Modelled from the spec: the recursive constraint walk of the Validation
Engine (`jsonschema.validate`) over the full listed vocabulary.  Constraints
of a node are evaluated in the fixed order `type`, `enum`, `const`,
`pattern`, `format`, `required`, `properties` (per document key in schema
declaration order), `additionalProperties` (per remaining document key in
declaration order), `items`/`additionalItems` (per index), `allOf` branches
in declaration order, then `anyOf`, `oneOf`, `not` (whose branch
sub-evaluation is pass/fail, scoped locally per the spec).  The walk is
fail-fast: it stops at the first violation and reports exactly that one,
extending `path` (document breadcrumb) and `spath` (schema breadcrumb) as it
descends. -/
def checkSchema (sem : StringSem) :
    Schema → Json → List String → List String → CheckResult
  | .mk tC eC cC patC fmtC rC pC apC iC aiC alC anC oC nC, d, path, spath =>
      seqR (headRes (collectType tC d path spath))
        (seqR (headRes (collectEnum eC d path spath))
          (seqR (headRes (collectConst cC d path spath))
            (seqR (headRes (collectPattern sem patC d path spath))
              (seqR (headRes (collectFormat sem fmtC d path spath))
                (seqR (headRes (collectRequired rC d path spath))
                  (seqR (checkProps sem pC d path spath)
                    (seqR (checkAddProps sem apC (propsKeys pC) d path spath)
                      (seqR (checkItems sem iC aiC d path spath)
                        (seqR (checkAllOf sem alC d 0 path spath)
                          (seqR (headRes (collectAnyOf sem anC d path spath))
                            (seqR (headRes (collectOneOf sem oC d path spath))
                              (headRes (collectNot sem nC d path spath)))))))))))))
termination_by s => (sizeOf s, 0)

/-- Fail-fast walk over `properties`: for each named subschema in declaration
order, if the document object has the key, recursively check the value,
extending the failure path with the key and the schema path with
`properties, key` (a non-object document has no keys, so every property
passes). -/
def checkProps (sem : StringSem) :
    Props → Json → List String → List String → CheckResult
  | .nil, _, _, _ => .ok
  | .cons k sub tl, d, path, spath =>
      seqR (match lookupIn d k with
            | Option.none => CheckResult.ok
            | Option.some v =>
                checkSchema sem sub v (path ++ [k]) (spath ++ ["properties", k]))
        (checkProps sem tl d path spath)
termination_by p => (sizeOf p, 0)

/-- Fail-fast dispatch for `additionalProperties`: nothing to check when the
keyword is absent or the document is not an object. -/
def checkAddProps (sem : StringSem) :
    OSch → List String → Json → List String → List String → CheckResult
  | .none, _, _, _, _ => .ok
  | .some s, own, d, path, spath =>
      match entriesOf d with
      | Option.none => CheckResult.ok
      | Option.some entries => checkExtra sem s own entries path spath
termination_by ap => (sizeOf ap, 0)

/-- Fail-fast walk of the document entries for `additionalProperties`: each
entry whose key is not named by `properties` is checked against the
subschema, extending the failure path with the key and the schema path with
`additionalProperties`. -/
def checkExtra (sem : StringSem) :
    Schema → List String → JObj → List String → List String → CheckResult
  | _, _, .nil, _, _ => .ok
  | s, own, .cons k v tl, path, spath =>
      seqR (if own.contains k then CheckResult.ok
            else checkSchema sem s v (path ++ [k]) (spath ++ ["additionalProperties"]))
        (checkExtra sem s own tl path spath)
termination_by s _ entries => (sizeOf s, sizeOf entries + 1)

/-- Fail-fast dispatch for `items`/`additionalItems`: nothing to check when
`items` is absent or the document is not an array. -/
def checkItems (sem : StringSem) :
    ItemsC → OSch → Json → List String → List String → CheckResult
  | .noItems, _, _, _, _ => .ok
  | .single s, _, d, path, spath =>
      match elemsOf d with
      | Option.none => CheckResult.ok
      | Option.some elems => checkElems sem s elems 0 path spath
  | .tuple ss, aiC, d, path, spath =>
      match elemsOf d with
      | Option.none => CheckResult.ok
      | Option.some elems => checkTuple sem ss aiC elems 0 path spath
termination_by iC aiC => (sizeOf iC + sizeOf aiC, 0)

/-- Fail-fast walk for single-schema `items`: each element is checked
against the subschema, extending the failure path with the index and the
schema path with `items`. -/
def checkElems (sem : StringSem) :
    Schema → JArr → Nat → List String → List String → CheckResult
  | _, .nil, _, _, _ => .ok
  | s, .cons hd tl, i, path, spath =>
      seqR (checkSchema sem s hd (path ++ [toString i]) (spath ++ ["items"]))
        (checkElems sem s tl (i + 1) path spath)
termination_by s elems => (sizeOf s, sizeOf elems + 1)

/-- Fail-fast walk for tuple-form `items`: element `i` is checked against
tuple subschema `i` (schema path `items, i`); elements beyond the tuple are
checked against `additionalItems` when present (schema path
`additionalItems`) and pass otherwise. -/
def checkTuple (sem : StringSem) :
    Schemas → OSch → JArr → Nat → List String → List String → CheckResult
  | .cons s rest, aiC, .cons hd tl, i, path, spath =>
      seqR (checkSchema sem s hd (path ++ [toString i])
              (spath ++ ["items", toString i]))
        (checkTuple sem rest aiC tl (i + 1) path spath)
  | .cons _ _, _, .nil, _, _, _ => .ok
  | .nil, .none, _, _, _, _ => .ok
  | .nil, .some s, .cons hd tl, i, path, spath =>
      seqR (checkSchema sem s hd (path ++ [toString i])
              (spath ++ ["additionalItems"]))
        (checkTuple sem .nil (.some s) tl (i + 1) path spath)
  | .nil, .some _, .nil, _, _, _ => .ok
termination_by ss aiC elems => (sizeOf ss + sizeOf aiC, sizeOf elems + 1)

/-- Fail-fast walk over `allOf` branches in declaration order; the schema
path is extended with `allOf, <index>`. -/
def checkAllOf (sem : StringSem) :
    Schemas → Json → Nat → List String → List String → CheckResult
  | .nil, _, _, _, _ => .ok
  | .cons hd tl, d, i, path, spath =>
      seqR (checkSchema sem hd d path (spath ++ ["allOf", toString i]))
        (checkAllOf sem tl d (i + 1) path spath)
termination_by a => (sizeOf a, 0)
end

mutual
/-- All constraint violations of the document against the schema, in the
deterministic traversal order of the fail-fast walk (`type`, `enum`,
`const`, `pattern`, `format`, `required` per missing key, `properties` per
key in declaration order, `additionalProperties` per remaining key,
`items`/`additionalItems` per index, `allOf` branches in declaration order,
`anyOf`, `oneOf`, `not`).  `checkSchema` reports exactly the head of this
list. -/
def collectSchema (sem : StringSem) :
    Schema → Json → List String → List String → List Violation
  | .mk tC eC cC patC fmtC rC pC apC iC aiC alC anC oC nC, d, path, spath =>
      collectType tC d path spath ++
      collectEnum eC d path spath ++
      collectConst cC d path spath ++
      collectPattern sem patC d path spath ++
      collectFormat sem fmtC d path spath ++
      collectRequired rC d path spath ++
      collectProps sem pC d path spath ++
      collectAddProps sem apC (propsKeys pC) d path spath ++
      collectItems sem iC aiC d path spath ++
      collectAllOf sem alC d 0 path spath ++
      collectAnyOf sem anC d path spath ++
      collectOneOf sem oC d path spath ++
      collectNot sem nC d path spath
termination_by s => (sizeOf s, 0)

/-- All violations under the `properties` keyword, per key in declaration
order. -/
def collectProps (sem : StringSem) :
    Props → Json → List String → List String → List Violation
  | .nil, _, _, _ => []
  | .cons k sub tl, d, path, spath =>
      (match lookupIn d k with
       | Option.none => []
       | Option.some v =>
           collectSchema sem sub v (path ++ [k]) (spath ++ ["properties", k])) ++
      collectProps sem tl d path spath
termination_by p => (sizeOf p, 0)

/-- All violations under the `additionalProperties` keyword. -/
def collectAddProps (sem : StringSem) :
    OSch → List String → Json → List String → List String → List Violation
  | .none, _, _, _, _ => []
  | .some s, own, d, path, spath =>
      match entriesOf d with
      | Option.none => []
      | Option.some entries => collectExtra sem s own entries path spath
termination_by ap => (sizeOf ap, 0)

/-- All violations of the remaining document entries against the
`additionalProperties` subschema. -/
def collectExtra (sem : StringSem) :
    Schema → List String → JObj → List String → List String → List Violation
  | _, _, .nil, _, _ => []
  | s, own, .cons k v tl, path, spath =>
      (if own.contains k then []
       else collectSchema sem s v (path ++ [k]) (spath ++ ["additionalProperties"])) ++
      collectExtra sem s own tl path spath
termination_by s _ entries => (sizeOf s, sizeOf entries + 1)

/-- All violations under the `items`/`additionalItems` keywords. -/
def collectItems (sem : StringSem) :
    ItemsC → OSch → Json → List String → List String → List Violation
  | .noItems, _, _, _, _ => []
  | .single s, _, d, path, spath =>
      match elemsOf d with
      | Option.none => []
      | Option.some elems => collectElems sem s elems 0 path spath
  | .tuple ss, aiC, d, path, spath =>
      match elemsOf d with
      | Option.none => []
      | Option.some elems => collectTuple sem ss aiC elems 0 path spath
termination_by iC aiC => (sizeOf iC + sizeOf aiC, 0)

/-- All violations of the array elements against the single `items`
subschema, per index. -/
def collectElems (sem : StringSem) :
    Schema → JArr → Nat → List String → List String → List Violation
  | _, .nil, _, _, _ => []
  | s, .cons hd tl, i, path, spath =>
      collectSchema sem s hd (path ++ [toString i]) (spath ++ ["items"]) ++
      collectElems sem s tl (i + 1) path spath
termination_by s elems => (sizeOf s, sizeOf elems + 1)

/-- All violations of the array elements against tuple-form `items` and
`additionalItems`, per index. -/
def collectTuple (sem : StringSem) :
    Schemas → OSch → JArr → Nat → List String → List String → List Violation
  | .cons s rest, aiC, .cons hd tl, i, path, spath =>
      collectSchema sem s hd (path ++ [toString i])
          (spath ++ ["items", toString i]) ++
      collectTuple sem rest aiC tl (i + 1) path spath
  | .cons _ _, _, .nil, _, _, _ => []
  | .nil, .none, _, _, _, _ => []
  | .nil, .some s, .cons hd tl, i, path, spath =>
      collectSchema sem s hd (path ++ [toString i])
          (spath ++ ["additionalItems"]) ++
      collectTuple sem .nil (.some s) tl (i + 1) path spath
  | .nil, .some _, .nil, _, _, _ => []
termination_by ss aiC elems => (sizeOf ss + sizeOf aiC, sizeOf elems + 1)

/-- All violations under the `allOf` keyword, per branch in declaration
order. -/
def collectAllOf (sem : StringSem) :
    Schemas → Json → Nat → List String → List String → List Violation
  | .nil, _, _, _, _ => []
  | .cons hd tl, d, i, path, spath =>
      collectSchema sem hd d path (spath ++ ["allOf", toString i]) ++
      collectAllOf sem tl d (i + 1) path spath
termination_by a => (sizeOf a, 0)
end

/-- The outcome of one validation call: `Valid`, `Invalid` with a single
violation, or `SchemaError` (the schema, not the document, is defective; it
carries no failure path into the document). -/
inductive VOutcome where
  | valid : VOutcome
  | invalid (v : Violation) : VOutcome
  | schemaError (msg : String) : VOutcome
deriving DecidableEq, Repr

/-- The message of the modelled `SchemaError`. -/
def schemaErrMsg : String := "schema is not a valid JSON Schema"

/-- Modelled from the spec: the whole library call
`jsonschema.validate(instance=data, schema=schema)` made by
`YamlSchemaValidator.validate`: first the schema self-check (a detectable
schema-authoring defect raises `SchemaError`), then the fail-fast constraint
walk from the roots with empty breadcrumbs, under the string-constraint
dialect `sem`. -/
def jsValidate (sem : StringSem) (schemaJson d : Json) : VOutcome :=
  match parseSchema schemaJson with
  | Option.none => .schemaError schemaErrMsg
  | Option.some s =>
      match checkSchema sem s d [] [] with
      | .ok => .valid
      | .fail v => .invalid v

/-- `' -> '.join(...)` over already-stringified path segments. -/
def joinPath (segs : List String) : String :=
  String.intercalate " -> " segs

/-- The `Failed at:` line of `YamlSchemaValidator.validate`:
`path_str = ' -> '.join(str(p) for p in e.path) if e.path else 'root'`. -/
def failedAtLine (path : List String) : String :=
  "Failed at: " ++ (if path.isEmpty then "root" else joinPath path)

/-- The report lines printed by `YamlSchemaValidator.validate` for one
outcome (the `except` blocks of lines 87-97): on a `ValidationError`, the
`Validation Error:` and `Failed at:` lines, then — only when `e.schema_path`
is non-empty (`if e.schema_path:`) — the `Schema path:` line; on a
`SchemaError`, the single `Schema Error:` line; nothing on success. -/
def formatOutcome : VOutcome → List String
  | .valid => []
  | .invalid v =>
      ["Validation Error: " ++ v.message, failedAtLine v.failurePath] ++
      (if v.schemaPath.isEmpty then []
       else ["Schema path: " ++ joinPath v.schemaPath])
  | .schemaError m => ["Schema Error: " ++ m]

/-- Python truthiness of a parsed YAML value, as tested by
`if not self.data:` — `None`, `False`, `0`, `0.0`, the empty string, the
empty sequence and the empty mapping are all falsy. -/
def falsy : Json → Bool
  | .null => true
  | .bool b => !b
  | .int n => n == 0
  | .num q => q == 0
  | .str s => s == ""
  | .arr .nil => true
  | .arr (.cons _ _) => false
  | .obj .nil => true
  | .obj (.cons _ _ _) => false

/-- What one call of the method `YamlSchemaValidator.validate` did: bail out
on `if not self.data:` with the `No data loaded` error, or reach the
`jsonschema.validate` call and observe its outcome. -/
inductive MethodResult where
  | noData : MethodResult
  | engineRan (o : VOutcome) : MethodResult
deriving DecidableEq, Repr

/-- The method `YamlSchemaValidator.validate`: `self.data` is `None` before a
successful `load_yaml`, otherwise the loaded value; any falsy value (not just
`None`) takes the `No data loaded` branch and the Validation Engine is never
invoked. -/
def validateMethod (sem : StringSem) (data : Option Json) (schema : Json) :
    MethodResult :=
  match data with
  | Option.none => .noData
  | Option.some d =>
      if falsy d then .noData else .engineRan (jsValidate sem schema d)

/-- The boolean the method `YamlSchemaValidator.validate` returns: `True`
only when the engine ran and raised nothing. -/
def methodReturn : MethodResult → Bool
  | .noData => false
  | .engineRan .valid => true
  | .engineRan (.invalid _) => false
  | .engineRan (.schemaError _) => false

/-- Whether the `jsonschema.validate` call was reached. -/
def engineInvoked : MethodResult → Bool
  | .noData => false
  | .engineRan _ => true

/-- What the file system holds at a path, as far as the loaders can tell:
nothing, content that fails to parse (raising `yaml.YAMLError` or
`json.JSONDecodeError`), or content that parses to a value. -/
inductive FContent where
  | missing : FContent
  | badSyntax : FContent
  | good (j : Json) : FContent
deriving DecidableEq, Repr

/-- `YamlSchemaValidator.load_yaml`: `Option.some` of the parsed value on
success (storing it in `self.data`), `Option.none` on `FileNotFoundError` or
`yaml.YAMLError` (the method prints the error and returns `False`). -/
def load_yaml : FContent → Option Json
  | .missing => Option.none
  | .badSyntax => Option.none
  | .good j => Option.some j

/-- `YamlSchemaValidator.load_json_schema`: `Option.some` of the parsed
schema object on success, `Option.none` on `FileNotFoundError` or
`json.JSONDecodeError`. -/
def load_json_schema : FContent → Option Json
  | .missing => Option.none
  | .badSyntax => Option.none
  | .good j => Option.some j

/-- `YamlSchemaValidator.validate_and_report`: load the YAML, and only if the
load succeeded run the `validate` method.  The first component is the
returned boolean, the second whether the Validation Engine
(`jsonschema.validate`) was invoked during the run. -/
def validate_and_report (sem : StringSem) (c : FContent) (schema : Json) :
    Bool × Bool :=
  match load_yaml c with
  | Option.none => (false, false)
  | Option.some d =>
      let r := validateMethod sem (Option.some d) schema
      (methodReturn r, engineInvoked r)

/-- One invocation of the CLI `main`: the component list of the document
path argument, what the file system holds at that path, the optional
explicit schema argument together with what its path holds, and what the
file system holds at the inferred schema path (consulted only when no
explicit schema is given and inference succeeds). -/
structure Invocation where
  docParts : List String
  docContent : FContent
  schemaArg : Option FContent
  inferredContent : FContent
deriving DecidableEq, Repr

/-- Does the path exist, as `click.Path(exists=True)` checks it? -/
def present : FContent → Bool
  | .missing => false
  | .badSyntax => true
  | .good _ => true

/-- The existence checks performed by the `click.Path(exists=True)`
declarations of both CLI arguments (validator.py lines 130-131) before the
body of `main` runs; click rejects a failing check as a usage error and
exits the process with status 2. -/
def clickOk (inv : Invocation) : Bool :=
  present inv.docContent &&
  (match inv.schemaArg with
   | Option.none => true
   | Option.some c => present c)

/-- The tail of `main` after a schema path has been resolved: load the
schema (exit 1 on failure), then `validate_and_report` and exit 0 on `True`,
1 on `False`. -/
def runWithSchema (sem : StringSem) (schemaC docC : FContent) : Nat :=
  match load_json_schema schemaC with
  | Option.none => 1
  | Option.some s => if (validate_and_report sem docC s).1 then 0 else 1

/-- The process exit status of one invocation of `main`: 2 when a
`click.Path(exists=True)` check rejects an argument; otherwise, with no
explicit schema argument, exit 1 when inference returns `None` (usage
error) and also when `infer_schema_path` raises `IndexError` (the uncaught
exception terminates the interpreter with status 1); otherwise load the
resolved schema and validate. -/
def mainRun (sem : StringSem) (inv : Invocation) : Nat :=
  if !clickOk inv then 2
  else
    match inv.schemaArg with
    | Option.none =>
        match infer_schema_path inv.docParts with
        | .noInference => 1
        | .indexError => 1
        | .ok _ => runWithSchema sem inv.inferredContent inv.docContent
    | Option.some c => runWithSchema sem c inv.docContent

/-- The schema object `main` manages to load, if any: the explicitly given
schema when an argument was passed, otherwise the content at the inferred
path when inference succeeded. -/
def schemaFor (inv : Invocation) : Option Json :=
  match inv.schemaArg with
  | Option.some c => load_json_schema c
  | Option.none =>
      match infer_schema_path inv.docParts with
      | .ok _ => load_json_schema inv.inferredContent
      | _ => Option.none

/-- Build an object spine from a list of entries. -/
def jObjOf : List (String × Json) → JObj
  | [] => .nil
  | (k, v) :: tl => .cons k v (jObjOf tl)

/-- Build an array spine from a list of values. -/
def jArrOf : List Json → JArr
  | [] => .nil
  | v :: tl => .cons v (jArrOf tl)

/-- Build a JSON object value from a list of entries. -/
def Json.objOf (l : List (String × Json)) : Json := .obj (jObjOf l)

/-- Build a JSON array value from a list of values. -/
def Json.arrOf (l : List Json) : Json := .arr (jArrOf l)

/-- The Scenario A schema: `properties.age.type = integer` and
`required: [name, age]`, as a JSON value. -/
def scenarioASchema : Json :=
  Json.objOf
    [("properties", Json.objOf [("age", Json.objOf [("type", Json.str "integer")])]),
     ("required", Json.arrOf [Json.str "name", Json.str "age"])]

/-- The Scenario A document `{name: "Alice", age: 30}` as a parsed value. -/
def scenarioADoc : Json :=
  Json.objOf [("name", Json.str "Alice"), ("age", Json.int 30)]

/-- A schema node constraining only the `type` keyword. -/
def tySchema (ty : JTy) : Schema :=
  emptySchema.withType (Option.some ty)

/-- The Scenario A schema as the engine parses it. -/
def scenarioAParsed : Schema :=
  (emptySchema.withRequired ["name", "age"]).withProps
    (.cons "age" (tySchema .integer) .nil)

/-- A schema under which a document can violate two independent constraints:
`required: [name]` and `properties.age.type = integer`. -/
def twoViolationSchema : Json :=
  Json.objOf
    [("required", Json.arrOf [Json.str "name"]),
     ("properties", Json.objOf [("age", Json.objOf [("type", Json.str "integer")])])]

/-- `twoViolationSchema` as the engine parses it. -/
def twoViolationParsed : Schema :=
  (emptySchema.withRequired ["name"]).withProps
    (.cons "age" (tySchema .integer) .nil)

/-- A document violating both constraints of `twoViolationSchema`: the
required key `name` is missing and `age` is not an integer. -/
def twoViolationDoc : Json :=
  Json.objOf [("age", Json.str "x")]

end Validator

namespace Validator

/-! ## Theorems about the Schema Path Resolver (`infer_schema_path`) -/

theorem indexOfSamples_append (pre rest : List String) (h : "samples" ∉ pre) :
    indexOfSamples (pre ++ "samples" :: rest) = Option.some pre.length := by
  induction pre with
  | nil => simp [indexOfSamples]
  | cons p tl ih =>
      simp only [List.mem_cons, not_or] at h
      simp [indexOfSamples, Ne.symm h.1, ih h.2]

theorem indexOfSamples_none (parts : List String) (h : "samples" ∉ parts) :
    indexOfSamples parts = Option.none := by
  induction parts with
  | nil => rfl
  | cons p tl ih =>
      simp only [List.mem_cons, not_or] at h
      simp [indexOfSamples, Ne.symm h.1, ih h.2]

/-- C2: for every document path whose components contain the anchor segment
`samples` (as first occurrence) followed by a category component `cat`, the
resolver returns exactly `schemas/cat/cat.schema.json`; for every path with
no `samples` component it returns no inference result (`None`). -/
theorem c2_path_resolution :
    (∀ (pre : List String) (cat : String) (post : List String), "samples" ∉ pre →
        infer_schema_path (pre ++ "samples" :: cat :: post) = .ok (schemaPathFor cat)) ∧
    (∀ parts : List String, "samples" ∉ parts →
        infer_schema_path parts = .noInference) := by
  constructor
  · intro pre cat post h
    have hg : (pre ++ "samples" :: cat :: post)[pre.length + 1]? =
        Option.some cat := by
      rw [List.getElem?_append_right (by omega)]
      simp [Nat.add_sub_cancel_left]
    simp [infer_schema_path, indexOfSamples_append pre (cat :: post) h, hg]
  · intro parts h
    simp [infer_schema_path, indexOfSamples_none parts h]

/-- C2 witness: the resolver at the concrete path
`samples/test-case/gsma.yml` and at a path without the anchor. -/
theorem c2_path_resolution_witness :
    infer_schema_path ["samples", "test-case", "gsma.yml"] =
      .ok (schemaPathFor "test-case") ∧
    infer_schema_path ["docs", "readme.md"] = .noInference :=
  ⟨c2_path_resolution.1 [] "test-case" ["gsma.yml"] (by decide),
   c2_path_resolution.2 ["docs", "readme.md"] (by decide)⟩

/-- C10: `infer_schema_path` is not total.  When the first `samples`
component is the last component (the anchor with nothing after it),
`parts[idx + 1]` raises `IndexError`; when the anchor is followed by at least
one component, and when there is no anchor at all, no `IndexError` is
raised — the function is only well-defined under that precondition. -/
theorem c10_anchor_totality :
    (∀ pre : List String, "samples" ∉ pre →
        infer_schema_path (pre ++ ["samples"]) = .indexError) ∧
    (∀ (parts : List String) (idx : Nat), indexOfSamples parts = Option.some idx →
        idx + 1 < parts.length → infer_schema_path parts ≠ .indexError) ∧
    (∀ parts : List String, indexOfSamples parts = Option.none →
        infer_schema_path parts ≠ .indexError) := by
  refine ⟨?_, ?_, ?_⟩
  · intro pre h
    have hg : (pre ++ ["samples"])[pre.length + 1]? = Option.none := by
      apply List.getElem?_eq_none
      simp
    simp [infer_schema_path, indexOfSamples_append pre [] h, hg]
  · intro parts idx h hlt
    cases hg : parts[idx + 1]? with
    | none =>
        rw [List.getElem?_eq_none_iff] at hg
        omega
    | some cat => simp [infer_schema_path, h, hg]
  · intro parts h
    simp [infer_schema_path, h]

/-- C10 witness: the crash at the concrete path `a/samples`, and a normal
result at `samples/tc/x.yml` where the anchor is followed by a component. -/
theorem c10_anchor_totality_witness :
    infer_schema_path ["a", "samples"] = .indexError ∧
    infer_schema_path ["samples", "tc", "x.yml"] ≠ .indexError :=
  ⟨c10_anchor_totality.1 ["a"] (by decide),
   c10_anchor_totality.2.1 ["samples", "tc", "x.yml"] 0 rfl (by decide)⟩

/-! ## Theorems about the Validation Engine -/

theorem headRes_append (a b : List Violation) :
    headRes (a ++ b) = seqR (headRes a) (headRes b) := by
  cases a <;> simp [headRes, seqR]

theorem headRes_ok_iff (l : List Violation) : headRes l = .ok ↔ l = [] := by
  cases l <;> simp [headRes]

theorem seqR_assoc (a b c : CheckResult) :
    seqR (seqR a b) c = seqR a (seqR b c) := by
  cases a <;> rfl

theorem collectIf_nil_iff (b : Bool) (v : Violation) :
    collectIf b v = [] ↔ b = true := by
  cases b <;> simp [collectIf]

theorem collectType_nil_iff (t : Option JTy) (d : Json) (path spath : List String) :
    collectType t d path spath = [] ↔ typeOkB t d = true := by
  cases t with
  | none => simp [collectType, typeOkB]
  | some ty => cases hty : typeMatches ty d <;> simp [collectType, typeOkB, hty]

theorem collectEnum_nil_iff (e : Option JArr) (d : Json) (path spath : List String) :
    collectEnum e d path spath = [] ↔ enumOkB e d = true := by
  cases e with
  | none => simp [collectEnum, enumOkB]
  | some xs => cases hm : xs.contains d <;> simp [collectEnum, enumOkB, hm]

theorem collectConst_nil_iff (c : Option Json) (d : Json) (path spath : List String) :
    collectConst c d path spath = [] ↔ constOkB c d = true :=
  collectIf_nil_iff _ _

theorem collectPattern_nil_iff (sem : StringSem) (p : Option String) (d : Json)
    (path spath : List String) :
    collectPattern sem p d path spath = [] ↔ patternOkB sem p d = true :=
  collectIf_nil_iff _ _

theorem collectFormat_nil_iff (sem : StringSem) (f : Option String) (d : Json)
    (path spath : List String) :
    collectFormat sem f d path spath = [] ↔ formatOkB sem f d = true :=
  collectIf_nil_iff _ _

theorem collectAnyOf_nil_iff (sem : StringSem) (an : OSchemas) (d : Json)
    (path spath : List String) :
    collectAnyOf sem an d path spath = [] ↔ anyOfOkB sem an d = true :=
  collectIf_nil_iff _ _

theorem collectOneOf_nil_iff (sem : StringSem) (o : OSchemas) (d : Json)
    (path spath : List String) :
    collectOneOf sem o d path spath = [] ↔ oneOfOkB sem o d = true :=
  collectIf_nil_iff _ _

theorem collectNot_nil_iff (sem : StringSem) (n : OSch) (d : Json)
    (path spath : List String) :
    collectNot sem n d path spath = [] ↔ notOkB sem n d = true :=
  collectIf_nil_iff _ _

theorem missingKeys_nil_iff (r : List String) (entries : JObj) :
    missingKeys r entries = [] ↔ r.all (fun k => entries.hasKey k) = true := by
  induction r with
  | nil => simp [missingKeys]
  | cons k rest ih => cases hk : entries.hasKey k <;> simp [missingKeys, hk, ih]

theorem collectRequired_nil_iff (r : List String) (d : Json)
    (path spath : List String) :
    collectRequired r d path spath = [] ↔ requiredOkB r d = true := by
  cases d <;> simp [collectRequired, requiredOkB, missingKeys_nil_iff]

mutual
/-- The fail-fast walk reports exactly the head of the list of all
violations in traversal order. -/
theorem check_eq_head (sem : StringSem) (s : Schema) (d : Json)
    (path spath : List String) :
    checkSchema sem s d path spath = headRes (collectSchema sem s d path spath) := by
  match s with
  | .mk tC eC cC patC fmtC rC pC apC iC aiC alC anC oC nC =>
    rw [checkSchema, collectSchema,
      checkProps_eq_head sem pC d path spath,
      checkAddProps_eq_head sem apC (propsKeys pC) d path spath,
      checkItems_eq_head sem iC aiC d path spath,
      checkAllOf_eq_head sem alC d 0 path spath]
    simp only [headRes_append, seqR_assoc]
termination_by (sizeOf s, 0)

theorem checkProps_eq_head (sem : StringSem) (p : Props) (d : Json)
    (path spath : List String) :
    checkProps sem p d path spath = headRes (collectProps sem p d path spath) := by
  match p with
  | .nil => simp [checkProps, collectProps, headRes]
  | .cons k sub tl =>
    rw [checkProps, collectProps, checkProps_eq_head sem tl d path spath]
    simp only [headRes_append]
    cases lookupIn d k with
    | none => rfl
    | some v =>
        exact congrArg (fun r => seqR r (headRes (collectProps sem tl d path spath)))
          (check_eq_head sem sub v (path ++ [k]) (spath ++ ["properties", k]))
termination_by (sizeOf p, 0)

theorem checkAddProps_eq_head (sem : StringSem) (ap : OSch) (own : List String)
    (d : Json) (path spath : List String) :
    checkAddProps sem ap own d path spath =
      headRes (collectAddProps sem ap own d path spath) := by
  match ap with
  | .none => simp [checkAddProps, collectAddProps, headRes]
  | .some s =>
    rw [checkAddProps, collectAddProps]
    cases entriesOf d with
    | none => rfl
    | some entries => exact checkExtra_eq_head sem s own entries path spath
termination_by (sizeOf ap, 0)

theorem checkExtra_eq_head (sem : StringSem) (s : Schema) (own : List String)
    (entries : JObj) (path spath : List String) :
    checkExtra sem s own entries path spath =
      headRes (collectExtra sem s own entries path spath) := by
  match entries with
  | .nil => simp [checkExtra, collectExtra, headRes]
  | .cons k v tl =>
    rw [checkExtra, collectExtra, checkExtra_eq_head sem s own tl path spath]
    simp only [headRes_append]
    cases hok : own.contains k with
    | true => simp [hok, headRes]
    | false =>
        simp only [hok, Bool.false_eq_true, if_false]
        exact congrArg
          (fun r => seqR r (headRes (collectExtra sem s own tl path spath)))
          (check_eq_head sem s v (path ++ [k]) (spath ++ ["additionalProperties"]))
termination_by (sizeOf s, sizeOf entries + 1)

theorem checkItems_eq_head (sem : StringSem) (iC : ItemsC) (aiC : OSch) (d : Json)
    (path spath : List String) :
    checkItems sem iC aiC d path spath =
      headRes (collectItems sem iC aiC d path spath) := by
  match iC with
  | .noItems => simp [checkItems, collectItems, headRes]
  | .single s =>
    rw [checkItems, collectItems]
    cases elemsOf d with
    | none => rfl
    | some elems => exact checkElems_eq_head sem s elems 0 path spath
  | .tuple ss =>
    rw [checkItems, collectItems]
    cases elemsOf d with
    | none => rfl
    | some elems => exact checkTuple_eq_head sem ss aiC elems 0 path spath
termination_by (sizeOf iC + sizeOf aiC, 0)

theorem checkElems_eq_head (sem : StringSem) (s : Schema) (elems : JArr) (i : Nat)
    (path spath : List String) :
    checkElems sem s elems i path spath =
      headRes (collectElems sem s elems i path spath) := by
  match elems with
  | .nil => simp [checkElems, collectElems, headRes]
  | .cons hd tl =>
    rw [checkElems, collectElems, headRes_append,
      check_eq_head sem s hd (path ++ [toString i]) (spath ++ ["items"]),
      checkElems_eq_head sem s tl (i + 1) path spath]
termination_by (sizeOf s, sizeOf elems + 1)

theorem checkTuple_eq_head (sem : StringSem) (ss : Schemas) (aiC : OSch)
    (elems : JArr) (i : Nat) (path spath : List String) :
    checkTuple sem ss aiC elems i path spath =
      headRes (collectTuple sem ss aiC elems i path spath) := by
  match ss, aiC, elems with
  | .cons s rest, aiC, .cons hd tl =>
    rw [checkTuple, collectTuple, headRes_append,
      check_eq_head sem s hd (path ++ [toString i]) (spath ++ ["items", toString i]),
      checkTuple_eq_head sem rest aiC tl (i + 1) path spath]
  | .cons _ _, _, .nil => simp [checkTuple, collectTuple, headRes]
  | .nil, .none, e => cases e <;> simp [checkTuple, collectTuple, headRes]
  | .nil, .some s, .cons hd tl =>
    rw [checkTuple, collectTuple, headRes_append,
      check_eq_head sem s hd (path ++ [toString i]) (spath ++ ["additionalItems"]),
      checkTuple_eq_head sem .nil (.some s) tl (i + 1) path spath]
  | .nil, .some _, .nil => simp [checkTuple, collectTuple, headRes]
termination_by (sizeOf ss + sizeOf aiC, sizeOf elems + 1)

theorem checkAllOf_eq_head (sem : StringSem) (a : Schemas) (d : Json) (i : Nat)
    (path spath : List String) :
    checkAllOf sem a d i path spath =
      headRes (collectAllOf sem a d i path spath) := by
  match a with
  | .nil => simp [checkAllOf, collectAllOf, headRes]
  | .cons hd tl =>
    rw [checkAllOf, collectAllOf, headRes_append,
      check_eq_head sem hd d path (spath ++ ["allOf", toString i]),
      checkAllOf_eq_head sem tl d (i + 1) path spath]
termination_by (sizeOf a, 0)
end

mutual
/-- The exhaustive violation list is empty exactly when the document
satisfies every applicable constraint of the schema. -/
theorem collect_nil_iff (sem : StringSem) (s : Schema) (d : Json)
    (path spath : List String) :
    collectSchema sem s d path spath = [] ↔ satisfiesB sem s d = true := by
  match s with
  | .mk tC eC cC patC fmtC rC pC apC iC aiC alC anC oC nC =>
    rw [collectSchema, satisfiesB]
    simp only [List.append_eq_nil, Bool.and_eq_true]
    rw [collectType_nil_iff, collectEnum_nil_iff, collectConst_nil_iff,
      collectPattern_nil_iff, collectFormat_nil_iff, collectRequired_nil_iff,
      collectProps_nil_iff sem pC d path spath,
      collectAddProps_nil_iff sem apC (propsKeys pC) d path spath,
      collectItems_nil_iff sem iC aiC d path spath,
      collectAllOf_nil_iff sem alC d 0 path spath,
      collectAnyOf_nil_iff, collectOneOf_nil_iff, collectNot_nil_iff]
termination_by (sizeOf s, 0)

theorem collectProps_nil_iff (sem : StringSem) (p : Props) (d : Json)
    (path spath : List String) :
    collectProps sem p d path spath = [] ↔ propsAll sem p d = true := by
  match p with
  | .nil => simp [collectProps, propsAll]
  | .cons k sub tl =>
    rw [collectProps, propsAll]
    simp only [List.append_eq_nil, Bool.and_eq_true]
    have h1 : (match lookupIn d k with
               | Option.none => ([] : List Violation)
               | Option.some v =>
                   collectSchema sem sub v (path ++ [k]) (spath ++ ["properties", k])) = [] ↔
        (match lookupIn d k with
         | Option.none => true
         | Option.some v => satisfiesB sem sub v) = true := by
      cases lookupIn d k with
      | none => simp
      | some v => exact collect_nil_iff sem sub v (path ++ [k]) (spath ++ ["properties", k])
    rw [h1, collectProps_nil_iff sem tl d path spath]
termination_by (sizeOf p, 0)

theorem collectAddProps_nil_iff (sem : StringSem) (ap : OSch) (own : List String)
    (d : Json) (path spath : List String) :
    collectAddProps sem ap own d path spath = [] ↔
      addPropsAll sem ap own d = true := by
  match ap with
  | .none => simp [collectAddProps, addPropsAll]
  | .some s =>
    rw [collectAddProps, addPropsAll]
    cases entriesOf d with
    | none => simp
    | some entries => exact collectExtra_nil_iff sem s own entries path spath
termination_by (sizeOf ap, 0)

theorem collectExtra_nil_iff (sem : StringSem) (s : Schema) (own : List String)
    (entries : JObj) (path spath : List String) :
    collectExtra sem s own entries path spath = [] ↔
      extraAll sem s own entries = true := by
  match entries with
  | .nil => simp [collectExtra, extraAll]
  | .cons k v tl =>
    rw [collectExtra, extraAll]
    simp only [List.append_eq_nil, Bool.and_eq_true]
    have h1 : (if own.contains k then ([] : List Violation)
               else collectSchema sem s v (path ++ [k])
                      (spath ++ ["additionalProperties"])) = [] ↔
        (if own.contains k then true else satisfiesB sem s v) = true := by
      cases hok : own.contains k with
      | true => simp [hok]
      | false =>
          simp only [hok, Bool.false_eq_true, if_false]
          exact collect_nil_iff sem s v (path ++ [k]) (spath ++ ["additionalProperties"])
    rw [h1, collectExtra_nil_iff sem s own tl path spath]
termination_by (sizeOf s, sizeOf entries + 1)

theorem collectItems_nil_iff (sem : StringSem) (iC : ItemsC) (aiC : OSch)
    (d : Json) (path spath : List String) :
    collectItems sem iC aiC d path spath = [] ↔ itemsAll sem iC aiC d = true := by
  match iC with
  | .noItems => simp [collectItems, itemsAll]
  | .single s =>
    rw [collectItems, itemsAll]
    cases elemsOf d with
    | none => simp
    | some elems => exact collectElems_nil_iff sem s elems 0 path spath
  | .tuple ss =>
    rw [collectItems, itemsAll]
    cases elemsOf d with
    | none => simp
    | some elems => exact collectTuple_nil_iff sem ss aiC elems 0 path spath
termination_by (sizeOf iC + sizeOf aiC, 0)

theorem collectElems_nil_iff (sem : StringSem) (s : Schema) (elems : JArr) (i : Nat)
    (path spath : List String) :
    collectElems sem s elems i path spath = [] ↔ elemsAll sem s elems = true := by
  match elems with
  | .nil => simp [collectElems, elemsAll]
  | .cons hd tl =>
    rw [collectElems, elemsAll]
    simp only [List.append_eq_nil, Bool.and_eq_true]
    rw [collect_nil_iff sem s hd (path ++ [toString i]) (spath ++ ["items"]),
      collectElems_nil_iff sem s tl (i + 1) path spath]
termination_by (sizeOf s, sizeOf elems + 1)

theorem collectTuple_nil_iff (sem : StringSem) (ss : Schemas) (aiC : OSch)
    (elems : JArr) (i : Nat) (path spath : List String) :
    collectTuple sem ss aiC elems i path spath = [] ↔
      tupleAll sem ss aiC elems = true := by
  match ss, aiC, elems with
  | .cons s rest, aiC, .cons hd tl =>
    rw [collectTuple, tupleAll]
    simp only [List.append_eq_nil, Bool.and_eq_true]
    rw [collect_nil_iff sem s hd (path ++ [toString i]) (spath ++ ["items", toString i]),
      collectTuple_nil_iff sem rest aiC tl (i + 1) path spath]
  | .cons a b, aiC, .nil => simp [collectTuple, tupleAll]
  | .nil, .none, e => cases e <;> simp [collectTuple, tupleAll]
  | .nil, .some s, .cons hd tl =>
    rw [collectTuple, tupleAll]
    simp only [List.append_eq_nil, Bool.and_eq_true]
    rw [collect_nil_iff sem s hd (path ++ [toString i]) (spath ++ ["additionalItems"]),
      collectTuple_nil_iff sem .nil (.some s) tl (i + 1) path spath]
  | .nil, .some a, .nil => simp [collectTuple, tupleAll]
termination_by (sizeOf ss + sizeOf aiC, sizeOf elems + 1)

theorem collectAllOf_nil_iff (sem : StringSem) (a : Schemas) (d : Json) (i : Nat)
    (path spath : List String) :
    collectAllOf sem a d i path spath = [] ↔ allOfAll sem a d = true := by
  match a with
  | .nil => simp [collectAllOf, allOfAll]
  | .cons hd tl =>
    rw [collectAllOf, allOfAll]
    simp only [List.append_eq_nil, Bool.and_eq_true]
    rw [collect_nil_iff sem hd d path (spath ++ ["allOf", toString i]),
      collectAllOf_nil_iff sem tl d (i + 1) path spath]
termination_by (sizeOf a, 0)
end

/-- The fail-fast walk succeeds exactly when the document satisfies every
applicable constraint. -/
theorem checkSchema_ok_iff (sem : StringSem) (s : Schema) (d : Json)
    (path spath : List String) :
    checkSchema sem s d path spath = .ok ↔ satisfiesB sem s d = true := by
  rw [check_eq_head, headRes_ok_iff, collect_nil_iff]

/-- C1: for every loaded document, every string-constraint dialect and every
well-formed schema (one the engine parses, over the full constraint
vocabulary), `validate` returns `Valid` exactly when the document satisfies
every applicable constraint of the schema, and `Invalid` (never anything
else) otherwise; the Scenario A instance is the witness below. -/
theorem c1_valid_iff_satisfies (sem : StringSem) (js d : Json) (s : Schema)
    (h : parseSchema js = Option.some s) :
    (jsValidate sem js d = .valid ↔ satisfiesB sem s d = true) ∧
    (satisfiesB sem s d = false → ∃ v, jsValidate sem js d = .invalid v) := by
  have hj : jsValidate sem js d =
      (match checkSchema sem s d [] [] with
       | .ok => VOutcome.valid
       | .fail v => VOutcome.invalid v) := by
    unfold jsValidate
    rw [h]
  constructor
  · rw [hj, ← checkSchema_ok_iff sem s d [] []]
    cases hc : checkSchema sem s d [] [] <;> simp [hc]
  · intro hf
    rw [hj]
    cases hc : checkSchema sem s d [] [] with
    | fail v => exact ⟨v, rfl⟩
    | ok =>
        rw [checkSchema_ok_iff sem s d [] []] at hc
        rw [hc] at hf
        exact absurd hf (by simp)

/-- C1 witness: Scenario A — the document `{name: "Alice", age: 30}` against
the schema with `properties.age.type = integer` and `required: [name, age]`
yields `Valid` (under the trivial dialect; the schema has no
`pattern`/`format`). -/
theorem c1_valid_iff_satisfies_witness :
    jsValidate anyStringSem scenarioASchema scenarioADoc = .valid :=
  (c1_valid_iff_satisfies anyStringSem scenarioASchema scenarioADoc
      scenarioAParsed (by decide)).1.mpr (by
    simp [scenarioAParsed, scenarioADoc, emptySchema, tySchema,
      Schema.withRequired, Schema.withProps, Schema.withType, satisfiesB,
      typeOkB, enumOkB, constOkB, patternOkB, formatOkB, requiredOkB,
      propsKeys, propsAll, addPropsAll, itemsAll, allOfAll, anyOfOkB,
      oneOfOkB, notOkB, lookupIn, JObj.lookup, JObj.hasKey, typeMatches,
      Json.objOf, jObjOf, Json.arrOf, jArrOf])

/-- C3: validation is fail-fast and deterministic — for every
string-constraint dialect and every well-formed schema, the outcome is
`Valid` exactly when the list of all violations in the fixed traversal order
is empty, and `Invalid v` exactly when `v` is the first element of that
list: a single violation (one message, one failure path, one schema path),
never an aggregate. -/
theorem c3_failfast_first_violation (sem : StringSem) (js d : Json) (s : Schema)
    (h : parseSchema js = Option.some s) :
    (jsValidate sem js d = .valid ↔ collectSchema sem s d [] [] = []) ∧
    (∀ v : Violation, jsValidate sem js d = .invalid v ↔
        (collectSchema sem s d [] []).head? = Option.some v) := by
  have hj : jsValidate sem js d =
      (match checkSchema sem s d [] [] with
       | .ok => VOutcome.valid
       | .fail v => VOutcome.invalid v) := by
    unfold jsValidate
    rw [h]
  rw [check_eq_head] at hj
  constructor
  · rw [hj]
    cases hc : collectSchema sem s d [] [] <;> simp [headRes, hc]
  · intro v
    rw [hj]
    cases hc : collectSchema sem s d [] [] <;> simp [headRes, hc]

/-- C3 witness: a document with two independent violations (missing required
key and a type mismatch); the violation list has two elements and the
reported violation is its head. -/
theorem c3_failfast_first_violation_witness :
    (collectSchema anyStringSem twoViolationParsed twoViolationDoc [] []).length = 2 ∧
    jsValidate anyStringSem twoViolationSchema twoViolationDoc =
      .invalid ⟨"missing required property name", [], ["required"]⟩ := by
  constructor
  · simp [twoViolationParsed, twoViolationDoc, emptySchema, tySchema,
      Schema.withRequired, Schema.withProps, Schema.withType, collectSchema,
      collectType, collectEnum, collectConst, collectPattern, collectFormat,
      collectRequired, collectProps, collectAddProps, collectItems,
      collectAllOf, collectAnyOf, collectOneOf, collectNot, collectIf,
      constOkB, patternOkB, formatOkB, anyOfOkB, oneOfOkB, notOkB,
      missingKeys, propsKeys, lookupIn, JObj.lookup, JObj.hasKey,
      typeMatches, Json.objOf, jObjOf, Json.arrOf, jArrOf]
  · exact ((c3_failfast_first_violation anyStringSem twoViolationSchema
        twoViolationDoc twoViolationParsed (by decide)).2
      ⟨"missing required property name", [], ["required"]⟩).mpr (by
      simp [twoViolationParsed, twoViolationDoc, emptySchema, tySchema,
        Schema.withRequired, Schema.withProps, Schema.withType, collectSchema,
        collectType, collectEnum, collectConst, collectPattern, collectFormat,
        collectRequired, collectProps, collectAddProps, collectItems,
        collectAllOf, collectAnyOf, collectOneOf, collectNot, collectIf,
        constOkB, patternOkB, formatOkB, anyOfOkB, oneOfOkB, notOkB,
        missingKeys, propsKeys, lookupIn, JObj.lookup, JObj.hasKey,
        typeMatches, Json.objOf, jObjOf, Json.arrOf, jArrOf])

/-- C8: for every string-constraint dialect, a schema requiring type
`integer` rejects the document value `3.5` and accepts `3`; a schema
requiring type `number` accepts both (integers are a subtype of numbers —
`typeMatches` for `number` absorbs `integer` — and the reverse does not
hold, witnessed by `3.5`). -/
theorem c8_type_distinction (sem : StringSem) :
    jsValidate sem (Json.objOf [("type", Json.str "integer")]) (Json.num (7 / 2)) =
      .invalid ⟨"value is not of type integer", [], ["type"]⟩ ∧
    jsValidate sem (Json.objOf [("type", Json.str "integer")]) (Json.int 3) = .valid ∧
    jsValidate sem (Json.objOf [("type", Json.str "number")]) (Json.num (7 / 2)) = .valid ∧
    jsValidate sem (Json.objOf [("type", Json.str "number")]) (Json.int 3) = .valid ∧
    (∀ d : Json, typeMatches JTy.number d =
        (typeMatches JTy.integer d || typeMatches JTy.number d)) := by
  have hpi : parseSchema (Json.objOf [("type", Json.str "integer")]) =
      Option.some (tySchema .integer) := by decide
  have hpn : parseSchema (Json.objOf [("type", Json.str "number")]) =
      Option.some (tySchema .number) := by decide
  refine ⟨?_, ?_, ?_, ?_, fun d => by cases d <;> rfl⟩ <;>
    simp [jsValidate, hpi, hpn, tySchema, emptySchema, Schema.withType,
      checkSchema, checkProps, checkAddProps, checkItems, checkAllOf,
      collectType, collectEnum, collectConst, collectPattern, collectFormat,
      collectRequired, collectAnyOf, collectOneOf, collectNot, collectIf,
      constOkB, patternOkB, formatOkB, anyOfOkB, oneOfOkB, notOkB,
      propsKeys, typeMatches, seqR, headRes, tyName]

/-- C6: a schema the engine detects as malformed fails with `SchemaError`,
never `Invalid` (for every string-constraint dialect); its report is the
single distinct `Schema Error` line — it indicates the schema, not the
document, is defective and carries no failure path — and differs from every
`Invalid` report. -/
theorem c6_schema_error (sem : StringSem) (js d : Json)
    (h : parseSchema js = Option.none) :
    jsValidate sem js d = .schemaError schemaErrMsg ∧
    (∀ v : Violation, jsValidate sem js d ≠ .invalid v) ∧
    formatOutcome (jsValidate sem js d) = ["Schema Error: " ++ schemaErrMsg] ∧
    (∀ v : Violation,
        formatOutcome (.invalid v) ≠ formatOutcome (jsValidate sem js d)) := by
  have hj : jsValidate sem js d = .schemaError schemaErrMsg := by
    unfold jsValidate
    rw [h]
  refine ⟨hj, ?_, ?_, ?_⟩
  · intro v
    rw [hj]
    simp
  · rw [hj]
    rfl
  · intro v he
    rw [hj] at he
    have hlen := congrArg List.length he
    by_cases hsp : v.schemaPath.isEmpty <;> simp [formatOutcome, hsp] at hlen

/-- C6 witness: the schema `{type: "strng"}` (an unsupported `type` value)
against the document `3`, under the trivial dialect. -/
theorem c6_schema_error_witness :
    jsValidate anyStringSem (Json.objOf [("type", Json.str "strng")]) (Json.int 3) =
      .schemaError schemaErrMsg ∧
    formatOutcome
      (jsValidate anyStringSem (Json.objOf [("type", Json.str "strng")]) (Json.int 3)) =
      ["Schema Error: " ++ schemaErrMsg] :=
  ⟨(c6_schema_error anyStringSem (Json.objOf [("type", Json.str "strng")])
      (Json.int 3) (by decide)).1,
   (c6_schema_error anyStringSem (Json.objOf [("type", Json.str "strng")])
      (Json.int 3) (by decide)).2.2.1⟩

/-! ## Theorems about the loaders, the report formatter and the CLI -/

/-- C5: when loading the document fails (file not found, or not well-formed
YAML), `validate_and_report` returns failure after `load_yaml` fails, and
the Validation Engine is never invoked on that run (for every
string-constraint dialect). -/
theorem c5_parse_error_stops (sem : StringSem) (c : FContent) (schema : Json)
    (h : load_yaml c = Option.none) :
    validate_and_report sem c schema = (false, false) := by
  unfold validate_and_report
  rw [h]

/-- C5 witness: malformed YAML input (a `yaml.YAMLError` such as an
unterminated quote). -/
theorem c5_parse_error_stops_witness :
    validate_and_report anyStringSem FContent.badSyntax (Json.objOf []) =
      (false, false) :=
  c5_parse_error_stops anyStringSem FContent.badSyntax (Json.objOf []) rfl

/-- C9: a document whose YAML parses to a falsy value takes the
`No data loaded` branch of the `validate` method: it returns failure and the
engine is never invoked, so such a document is reported invalid against
every schema — including schemas that accept it (see the witness). -/
theorem c9_falsy_no_data (sem : StringSem) (d schema : Json) (h : falsy d = true) :
    validateMethod sem (Option.some d) schema = .noData ∧
    methodReturn (validateMethod sem (Option.some d) schema) = false ∧
    engineInvoked (validateMethod sem (Option.some d) schema) = false := by
  have hm : validateMethod sem (Option.some d) schema = .noData := by
    simp [validateMethod, h]
  rw [hm]
  exact ⟨rfl, rfl, rfl⟩

/-- C9 witness: the falsy document `0` against the empty schema `{}`, which
accepts it (`jsValidate` returns `Valid`), is still reported as failure with
the engine never invoked. -/
theorem c9_falsy_no_data_witness :
    falsy (Json.int 0) = true ∧
    jsValidate anyStringSem (Json.objOf []) (Json.int 0) = .valid ∧
    validateMethod anyStringSem (Option.some (Json.int 0)) (Json.objOf []) = .noData ∧
    methodReturn
      (validateMethod anyStringSem (Option.some (Json.int 0)) (Json.objOf [])) = false :=
  ⟨by decide,
   by
     have hp : parseSchema (Json.objOf []) = Option.some emptySchema := by decide
     simp [jsValidate, hp, emptySchema, checkSchema, checkProps, checkAddProps,
       checkItems, checkAllOf, collectType, collectEnum, collectConst,
       collectPattern, collectFormat, collectRequired, collectAnyOf,
       collectOneOf, collectNot, collectIf, constOkB, patternOkB, formatOkB,
       anyOfOkB, oneOfOkB, notOkB, propsKeys, typeOkB, enumOkB, requiredOkB,
       seqR, headRes],
   (c9_falsy_no_data anyStringSem (Json.int 0) (Json.objOf []) (by decide)).1,
   (c9_falsy_no_data anyStringSem (Json.int 0) (Json.objOf []) (by decide)).2.1⟩

/-- C7 counterexample: at the concrete `Invalid` outcome with empty failure
path and empty schema path, the formatter renders `Failed at: root` for the
failure path but does not render the schema path analogously: no
`Schema path: root` line is printed — the whole report is the two lines
with no schema path line at all, refuting the claim that the schema path is
rendered the same way as the failure path. -/
theorem c7_formatter_counterexample :
    formatOutcome (.invalid ⟨"m", [], []⟩) =
      ["Validation Error: m", "Failed at: root"] ∧
    ∀ line ∈ formatOutcome (.invalid ⟨"m", [], []⟩), line ≠ "Schema path: root" := by
  decide

/-- C7 amended: on `Invalid`, the formatter (a total function over outcomes)
renders the violation message, then the failure path breadcrumb joined with
`" -> "` using the literal `root` when the failure path is empty; the schema
path line is rendered as a joined breadcrumb only when the schema path is
non-empty — when it is empty the line is omitted entirely (no `root`
fallback for the schema path). -/
theorem c7_formatter_amended (v : Violation) :
    (formatOutcome (.invalid v))[0]? =
      Option.some ("Validation Error: " ++ v.message) ∧
    (v.failurePath = [] →
      (formatOutcome (.invalid v))[1]? = Option.some "Failed at: root") ∧
    (v.failurePath ≠ [] →
      (formatOutcome (.invalid v))[1]? =
        Option.some ("Failed at: " ++ String.intercalate " -> " v.failurePath)) ∧
    (v.schemaPath = [] → (formatOutcome (.invalid v)).length = 2) ∧
    (v.schemaPath ≠ [] →
      (formatOutcome (.invalid v)).length = 3 ∧
      (formatOutcome (.invalid v))[2]? =
        Option.some ("Schema path: " ++ String.intercalate " -> " v.schemaPath)) := by
  obtain ⟨m, fp, sp⟩ := v
  cases fp <;> cases sp <;>
    simp [formatOutcome, failedAtLine, joinPath]

/-- C7 amended witness: the formatter at a violation with non-empty paths
and at one with empty paths. -/
theorem c7_formatter_amended_witness :
    (formatOutcome (.invalid ⟨"m", ["a", "b"], ["p", "t"]⟩))[2]? =
      Option.some ("Schema path: " ++ String.intercalate " -> " ["p", "t"]) ∧
    (formatOutcome (.invalid ⟨"m", [], []⟩)).length = 2 :=
  ⟨((c7_formatter_amended ⟨"m", ["a", "b"], ["p", "t"]⟩).2.2.2.2 (by decide)).2,
   (c7_formatter_amended ⟨"m", [], []⟩).2.2.2.1 rfl⟩

theorem runWithSchema_spec (sem : StringSem) (sc dc : FContent) :
    (runWithSchema sem sc dc = 0 ∨ runWithSchema sem sc dc = 1) ∧
    (runWithSchema sem sc dc = 0 ↔
      ∃ s d, load_json_schema sc = Option.some s ∧ load_yaml dc = Option.some d ∧
        falsy d = false ∧ jsValidate sem s d = .valid) := by
  unfold runWithSchema validate_and_report
  cases hs : load_json_schema sc with
  | none => simp
  | some s =>
    cases hd : load_yaml dc with
    | none => simp
    | some d =>
      cases hf : falsy d with
      | true => simp [validateMethod, methodReturn, hf]
      | false =>
        cases ho : jsValidate sem s d <;>
          simp [validateMethod, methodReturn, hf, ho]

/-- C4 counterexample: an invocation whose document path does not exist.
The claim says a `NotFound` load error exits with status 1 and that no
statuses other than 0 and 1 occur; but `click.Path(exists=True)` rejects
the missing path as a usage error and the process exits with status 2. -/
theorem c4_exit_codes_counterexample :
    mainRun anyStringSem ⟨["doc.yml"], .missing, Option.none, .missing⟩ = 2 ∧
    ¬ (mainRun anyStringSem ⟨["doc.yml"], .missing, Option.none, .missing⟩ = 0 ∨
       mainRun anyStringSem ⟨["doc.yml"], .missing, Option.none, .missing⟩ = 1) := by
  have h2 : mainRun anyStringSem ⟨["doc.yml"], .missing, Option.none, .missing⟩ = 2 := by
    simp [mainRun, clickOk, present]
  rw [h2]
  exact ⟨rfl, by omega⟩

/-- C4 amended: when a path passed as a command-line argument does not
exist, the click argument layer exits with usage status 2 before the body of
`main` runs; in every other case the process exits 0 exactly when a schema
was resolved and loaded, the document loaded to a non-falsy value, and the
engine returned `Valid` — and exits 1 otherwise (`Invalid`, parse errors,
`SchemaError`, the not-inferable usage error, and the `IndexError` crash all
included). -/
theorem c4_exit_codes_amended (sem : StringSem) (inv : Invocation) :
    (clickOk inv = false → mainRun sem inv = 2) ∧
    (clickOk inv = true →
      (mainRun sem inv = 0 ∨ mainRun sem inv = 1) ∧
      (mainRun sem inv = 0 ↔
        ∃ s d, schemaFor inv = Option.some s ∧
          load_yaml inv.docContent = Option.some d ∧ falsy d = false ∧
          jsValidate sem s d = .valid)) := by
  constructor
  · intro h
    simp [mainRun, h]
  · intro h
    unfold mainRun schemaFor
    rw [h]
    simp only [Bool.not_true, Bool.false_eq_true, if_false]
    cases hsa : inv.schemaArg with
    | some c => exact runWithSchema_spec sem c inv.docContent
    | none =>
      cases hi : infer_schema_path inv.docParts with
      | ok p => exact runWithSchema_spec sem inv.inferredContent inv.docContent
      | noInference => simp
      | indexError => simp

/-- C4 amended witness: a full valid run (exit 0) and a missing-document
invocation (exit 2). -/
theorem c4_exit_codes_amended_witness :
    mainRun anyStringSem ⟨["samples", "tc", "x.yml"],
             FContent.good (Json.objOf [("name", Json.str "A")]), Option.none,
             FContent.good (Json.objOf [("required", Json.arrOf [Json.str "name"])])⟩ = 0 ∧
    mainRun anyStringSem ⟨["doc.yml"], FContent.missing, Option.none, FContent.missing⟩ = 2 :=
  ⟨((c4_exit_codes_amended anyStringSem _).2 (by decide)).2.mpr
      ⟨Json.objOf [("required", Json.arrOf [Json.str "name"])],
       Json.objOf [("name", Json.str "A")], by decide, by decide, by decide,
       by
         have hp : parseSchema (Json.objOf [("required", Json.arrOf [Json.str "name"])]) =
             Option.some (emptySchema.withRequired ["name"]) := by decide
         simp only [Json.objOf, jObjOf, Json.arrOf, jArrOf] at hp
         simp [jsValidate, hp, emptySchema, Schema.withRequired, checkSchema,
           checkProps, checkAddProps, checkItems, checkAllOf, collectType,
           collectEnum, collectConst, collectPattern, collectFormat,
           collectRequired, collectAnyOf, collectOneOf, collectNot, collectIf,
           constOkB, patternOkB, formatOkB, anyOfOkB, oneOfOkB, notOkB,
           propsKeys, typeOkB, enumOkB, requiredOkB, missingKeys, JObj.hasKey,
           Json.objOf, jObjOf, Json.arrOf, jArrOf, seqR, headRes]⟩,
   (c4_exit_codes_amended anyStringSem _).1 (by decide)⟩

end Validator
